import Mathlib

/-
Verification development for the Map Quiz Game (src/src/MapQuizGame.jsx).
JavaScript strings are modeled as lists of characters.  The Unicode
operations used by the source (String.prototype.normalize("NFD"),
the Diacritic property class, whitespace, toLowerCase) are modeled with
finite character tables that cover the Latin repertoire handled by the
application; characters outside the tables are untouched, exactly as the
identity cases of the corresponding Unicode maps.
-/

abbrev Str := List Char

/-- Whitespace test modeling the JavaScript regular-expression class \s on
the characters the app can meet (space, tab, newline, carriage return,
vertical tab, form feed, no-break space). -/
def isWs (c : Char) : Bool :=
  c == ' ' || c == '\t' || c == '\n' || c == '\r' ||
  c.toNat == 11 || c.toNat == 12 || c.toNat == 160

/-- Combining-diacritic test modeling the regular expression
class \p{Diacritic} on the combining diacritical marks block. -/
def isDiacritic (c : Char) : Bool := 768 ≤ c.toNat && c.toNat ≤ 879

def graveM : Char := Char.ofNat 768
def acuteM : Char := Char.ofNat 769
def circM : Char := Char.ofNat 770
def tildeM : Char := Char.ofNat 771
def diaerM : Char := Char.ofNat 776
def ringM : Char := Char.ofNat 778
def cedilM : Char := Char.ofNat 807

/-- Canonical decompositions (NFD) for the precomposed Latin letters the
datasets and aliases use; any other character decomposes to itself. -/
def decompTable : List (Char × List Char) := [
  ('À', ['A', graveM]), ('Á', ['A', acuteM]), ('Â', ['A', circM]),
  ('Ã', ['A', tildeM]), ('Ä', ['A', diaerM]), ('Å', ['A', ringM]),
  ('Ç', ['C', cedilM]),
  ('È', ['E', graveM]), ('É', ['E', acuteM]), ('Ê', ['E', circM]), ('Ë', ['E', diaerM]),
  ('Ì', ['I', graveM]), ('Í', ['I', acuteM]), ('Î', ['I', circM]), ('Ï', ['I', diaerM]),
  ('Ñ', ['N', tildeM]),
  ('Ò', ['O', graveM]), ('Ó', ['O', acuteM]), ('Ô', ['O', circM]),
  ('Õ', ['O', tildeM]), ('Ö', ['O', diaerM]),
  ('Ù', ['U', graveM]), ('Ú', ['U', acuteM]), ('Û', ['U', circM]), ('Ü', ['U', diaerM]),
  ('Ý', ['Y', acuteM]),
  ('à', ['a', graveM]), ('á', ['a', acuteM]), ('â', ['a', circM]),
  ('ã', ['a', tildeM]), ('ä', ['a', diaerM]), ('å', ['a', ringM]),
  ('ç', ['c', cedilM]),
  ('è', ['e', graveM]), ('é', ['e', acuteM]), ('ê', ['e', circM]), ('ë', ['e', diaerM]),
  ('ì', ['i', graveM]), ('í', ['i', acuteM]), ('î', ['i', circM]), ('ï', ['i', diaerM]),
  ('ñ', ['n', tildeM]),
  ('ò', ['o', graveM]), ('ó', ['o', acuteM]), ('ô', ['o', circM]),
  ('õ', ['o', tildeM]), ('ö', ['o', diaerM]),
  ('ù', ['u', graveM]), ('ú', ['u', acuteM]), ('û', ['u', circM]), ('ü', ['u', diaerM]),
  ('ý', ['y', acuteM]), ('ÿ', ['y', diaerM])]

def decomp (c : Char) : List Char :=
  match decompTable.find? (fun e => e.1 == c) with
  | some e => e.2
  | none => [c]

/-- NFD normalization of a string: concatenate the decompositions. -/
def nfd : Str → Str
  | [] => []
  | c :: cs => decomp c ++ nfd cs

/-- ASCII lowercase table modeling toLowerCase on the code points that can
survive the diacritic stripping of the app pipeline. -/
def lowerTable : List (Char × Char) := [
  ('A','a'), ('B','b'), ('C','c'), ('D','d'), ('E','e'), ('F','f'), ('G','g'),
  ('H','h'), ('I','i'), ('J','j'), ('K','k'), ('L','l'), ('M','m'), ('N','n'),
  ('O','o'), ('P','p'), ('Q','q'), ('R','r'), ('S','s'), ('T','t'), ('U','u'),
  ('V','v'), ('W','w'), ('X','x'), ('Y','y'), ('Z','z')]

def lowerChar (c : Char) : Char :=
  match lowerTable.find? (fun e => e.1 == c) with
  | some e => e.2
  | none => c

/-- Replacement step of replace(/\s+/g, " "): each whitespace character
becomes a plain space. -/
def wsToSp (c : Char) : Char := if isWs c then ' ' else c

/-- Collapse step of replace(/\s+/g, " "): adjacent spaces are merged. -/
def dedupe : Str → Str
  | [] => []
  | [c] => [c]
  | a :: b :: rest =>
    if a == ' ' && b == ' ' then dedupe (b :: rest) else a :: dedupe (b :: rest)

/-- Remove trailing whitespace (right half of String.prototype.trim). -/
def trimR : Str → Str
  | [] => []
  | c :: cs =>
    match trimR cs with
    | [] => if isWs c then [] else [c]
    | r => c :: r

/-- Model of String.prototype.trim. -/
def trimJS (s : Str) : Str := trimR (s.dropWhile isWs)

/-- Model of the source function norm: NFD decomposition, diacritic
stripping, whitespace collapsing, trimming, lowercasing. -/
def norm (s : Str) : Str :=
  (trimJS (dedupe (((nfd s).filter (fun c => !isDiacritic c)).map wsToSp))).map lowerChar

/-- Model of norm applied to a possibly null or undefined argument,
following the source guard (s || ""). -/
def normOpt : Option Str → Str
  | none => norm []
  | some s => norm s

/-- Absence of two adjacent plain spaces, the shape replace(/\s+/g, " ")
guarantees. -/
def noDouble : Str → Bool
  | [] => true
  | [_] => true
  | a :: b :: rest => !(a == ' ' && b == ' ') && noDouble (b :: rest)

/-- Characters left untouched by every stage of norm: stable under NFD,
not a diacritic, whitespace only if a plain space, and fixed by
lowercasing. -/
def charOKb (c : Char) : Bool :=
  (decomp c == [c]) && !isDiacritic c && (!isWs c || c == ' ') && (lowerChar c == c)

def apos : Char := Char.ofNat 39

/-- Alias table of the source (NAME_ALIASES): canonical normalized names
mapped to accepted alternate spellings. -/
def NAME_ALIASES : List (Str × List Str) := [
  (("ontario".data), [("on".data)]),
  (("quebec".data), [("qc".data), ("pq".data), ("quebec".data)]),
  (("newfoundland and labrador".data), [("newfoundland".data), ("nl".data)]),
  (("prince edward island".data), [("pei".data)]),
  (("nova scotia".data), [("ns".data)]),
  (("new brunswick".data), [("nb".data)]),
  (("british columbia".data), [("bc".data)]),
  (("northwest territories".data), [("nwt".data)]),
  (("nunavut".data), [("nu".data)]),
  (("yukon".data), [("yt".data)]),
  (("alabama".data), [("al".data)]),
  (("alaska".data), [("ak".data)]),
  (("arizona".data), [("az".data)]),
  (("arkansas".data), [("ar".data)]),
  (("california".data), [("ca".data)]),
  (("colorado".data), [("co".data)]),
  (("connecticut".data), [("ct".data)]),
  (("delaware".data), [("de".data)]),
  (("florida".data), [("fl".data)]),
  (("georgia".data), [("ga".data)]),
  (("hawaii".data), [("hi".data)]),
  (("idaho".data), [("id".data)]),
  (("illinois".data), [("il".data)]),
  (("indiana".data), [("in".data)]),
  (("iowa".data), [("ia".data)]),
  (("kansas".data), [("ks".data)]),
  (("kentucky".data), [("ky".data)]),
  (("louisiana".data), [("la".data)]),
  (("maine".data), [("me".data)]),
  (("maryland".data), [("md".data)]),
  (("massachusetts".data), [("ma".data)]),
  (("michigan".data), [("mi".data)]),
  (("minnesota".data), [("mn".data)]),
  (("mississippi".data), [("ms".data)]),
  (("missouri".data), [("mo".data)]),
  (("montana".data), [("mt".data)]),
  (("nebraska".data), [("ne".data)]),
  (("nevada".data), [("nv".data)]),
  (("new hampshire".data), [("nh".data)]),
  (("new jersey".data), [("nj".data)]),
  (("new mexico".data), [("nm".data)]),
  (("new york".data), [("ny".data)]),
  (("north carolina".data), [("nc".data)]),
  (("north dakota".data), [("nd".data)]),
  (("ohio".data), [("oh".data)]),
  (("oklahoma".data), [("ok".data)]),
  (("oregon".data), [("or".data)]),
  (("pennsylvania".data), [("pa".data)]),
  (("rhode island".data), [("ri".data)]),
  (("south carolina".data), [("sc".data)]),
  (("south dakota".data), [("sd".data)]),
  (("tennessee".data), [("tn".data)]),
  (("texas".data), [("tx".data)]),
  (("utah".data), [("ut".data)]),
  (("vermont".data), [("vt".data)]),
  (("virginia".data), [("va".data)]),
  (("washington".data), [("wa".data)]),
  (("west virginia".data), [("wv".data)]),
  (("wisconsin".data), [("wi".data)]),
  (("wyoming".data), [("wy".data)]),
  ((("cote d".data) ++ [apos] ++ ("ivoire".data)),
    [("ivory coast".data), ("cote divoire".data)]),
  (("czechia".data), [("czech republic".data)]),
  (("eswatini".data), [("swaziland".data)]),
  (("myanmar".data), [("burma".data)]),
  (("democratic republic of the congo".data),
    [("drc".data), ("dr congo".data), ("congo-kinshasa".data)]),
  (("republic of the congo".data), [("congo-brazzaville".data)]),
  (("united states of america".data),
    [("united states".data), ("usa".data), ("us".data)]),
  (("united kingdom".data),
    [("uk".data), ("great britain".data), ("britain".data)])]

/-- Alias lookup: NAME_ALIASES[c] || [] of the source. -/
def aliasesOf (c : Str) : List Str :=
  ((NAME_ALIASES.find? (fun e => e.1 == c)).map (fun e => e.2)).getD []

/-- Model of the source function matchesAnswer. -/
def matchesAnswer (answer canonical : Str) : Bool :=
  let a := norm answer
  let c := norm canonical
  if a == c then true
  else (aliasesOf c).any (fun alt => norm alt == a)

/-
Geometry validation.  Coordinate payloads are modeled as JSON-like
values; numbers carry a finiteness flag because the source tests
typeof x === "number" && isFinite(x).
-/

inductive JVal where
  | jnull
  | jnum (v : Int) (finite : Bool)
  | jstr (s : Str)
  | jbool (b : Bool)
  | jarr (elems : List JVal)

/-- JavaScript truthiness of a JSON-like value. -/
def truthyJ : JVal → Bool
  | .jnull => false
  | .jnum v finite => finite && !(v == 0)
  | .jstr s => !(s == [])
  | .jbool b => b
  | .jarr _ => true

/-- Model of the source helper isNum. -/
def isNumJ : JVal → Bool
  | .jnum _ finite => finite
  | _ => false

structure Geometry where
  gtype : Str
  coordinates : JVal

structure Feature where
  geometry : Option Geometry

/-- Model of the inner probe hasFirstNumber of isRenderableFeature:
three nested nonempty arrays with a finite numeric first leaf. -/
def hasFirstNumber : JVal → Bool
  | .jarr (.jarr (.jarr (z :: _) :: _) :: _) => isNumJ z
  | _ => false

/-- Model of the source function isRenderableFeature. -/
def isRenderableFeature (f : Option Feature) : Bool :=
  match f with
  | none => false
  | some f =>
    match f.geometry with
    | none => false
    | some g =>
      if !truthyJ g.coordinates then false
      else if g.gtype == ("Polygon".data) then hasFirstNumber g.coordinates
      else if g.gtype == ("MultiPolygon".data) then
        match g.coordinates with
        | .jarr (poly :: _) => hasFirstNumber poly
        | _ => false
      else false

/-
UK name resolution: pickNameUK reads a property bag.  Property bags are
modeled as association lists in insertion order (for-in order).
-/

inductive PVal where
  | pstr (s : Str)
  | pnum (v : Int)
  | pbool (b : Bool)
  | pnull
deriving DecidableEq

abbrev Props := List (Str × PVal)

def plookup (props : Props) (k : Str) : Option PVal :=
  (props.find? (fun e => e.1 == k)).map (fun e => e.2)

/-- JavaScript truthiness of a property value. -/
def truthyP : PVal → Bool
  | .pstr s => !(s == [])
  | .pnum v => !(v == 0)
  | .pbool b => b
  | .pnull => false

/-- Nonempty-after-trim test used by the source as v.trim() truthiness. -/
def strTrimNonempty (s : Str) : Bool := !(trimJS s == [])

/-- Test of the source regular expression /^[A-Z]{1,3}\d{5,}$/: one to
three uppercase letters followed by at least five digits.  The greedy
uppercase prefix is equivalent to the regular expression because an
uppercase letter can never match \d and a digit can never match [A-Z]. -/
def gssLike (s : Str) : Bool :=
  let isUp := fun (c : Char) => 65 ≤ c.toNat && c.toNat ≤ 90
  let us := s.takeWhile isUp
  let ds := s.dropWhile isUp
  decide (1 ≤ us.length) && decide (us.length ≤ 3) && decide (5 ≤ ds.length) &&
  ds.all (fun c => 48 ≤ c.toNat && c.toNat ≤ 57)

/-- Model of UK_COUNTRY_CODE_MAP of the source. -/
def ukLookup (c : Str) : Option Str :=
  if c = ("E92000001".data) then some ("England".data)
  else if c = ("S92000003".data) then some ("Scotland".data)
  else if c = ("W92000004".data) then some ("Wales".data)
  else if c = ("N92000002".data) then some ("Northern Ireland".data)
  else none

/-- Preferred name fields of pickNameUK, in source order. -/
def ukNameFields : List Str := [
  ("name".data), ("NAME".data), ("NAME_1".data), ("NAME_2".data),
  ("ctry17nm".data), ("ctry19nm".data), ("ctry20nm".data), ("country".data),
  ("ctyua17nm".data), ("ctyua19nm".data), ("lad17nm".data), ("lad18nm".data),
  ("area_name".data), ("layer".data), ("laua_name".data)]

/-- Code fields of pickNameUK, in the order of the || chain. -/
def ukCodeFields : List Str := [
  ("ctry17cd".data), ("ctry19cd".data), ("gss_code".data), ("ctyua17cd".data),
  ("lad17cd".data), ("lad18cd".data), ("code".data), ("id".data)]

/-- Last-resort loop of pickNameUK: first string property that is
nonempty after trimming and does not look like a GSS code. -/
def lastResortUK (props : Props) : Str :=
  (props.filterMap (fun e =>
    match e.2 with
    | .pstr v => if strTrimNonempty v && !gssLike v then some v else none
    | _ => none)).headD []

/-- Model of the source function pickNameUK. -/
def pickNameUK (props? : Option Props) : Str :=
  match props? with
  | none => []
  | some props =>
    let cands := ukNameFields.filterMap (fun k =>
      match plookup props k with
      | some (.pstr s) => if strTrimNonempty s then some s else none
      | _ => none)
    match cands with
    | v :: _ => v
    | [] =>
      match (ukCodeFields.filterMap (fun k => plookup props k)).find? truthyP with
      | some (.pstr c) =>
        match ukLookup c with
        | some nm => nm
        | none => if gssLike c then [] else lastResortUK props
      | _ => lastResortUK props

/-
Explore-mode fetcher for subnational regions: fetchSubnationalInfo.
The encyclopedia summary service is modeled as an oracle from page titles
to an optional summary payload; none stands for a non-ok response or a
thrown network or parse error, which the source swallows per candidate.
-/

structure WikiCtx where
  city : Option Str
  country : Option Str

structure WikiSummary where
  title : Option Str
  description : Option Str
  extract : Option Str
  originalimage : Option Str
  thumbnail : Option Str
  pageUrl : Option Str
deriving DecidableEq

structure InfoRecord where
  title : Str
  description : Str
  summary : Str
  image : Option Str
  flag : Option Str
  coat : Option Str
  sourceUrl : Option Str
deriving DecidableEq

/-- JavaScript a || b for an optional string against a string default:
absent and empty strings are falsy. -/
def jsOrStr (o : Option Str) (d : Str) : Str :=
  match o with
  | some s => if s = [] then d else s
  | none => d

/-- JavaScript a || null for an optional string: empty strings fall
through to null. -/
def jsTruthyOpt (o : Option Str) : Option Str :=
  match o with
  | some s => if s = [] then none else some s
  | none => none

/-- First truthy string of a || chain, else null. -/
def firstTruthy (l : List (Option Str)) : Option Str :=
  (l.filterMap id).find? (fun s => !(s == []))

/-- Candidate title list of fetchSubnationalInfo, including the
filter(Boolean) step that removes null entries and empty strings. -/
def tryTitles (name : Str) (ctx : WikiCtx) : List Str :=
  ([ctx.city.map (fun ci => name ++ (", ".data) ++ ci),
    ctx.country.map (fun co => name ++ (", ".data) ++ co),
    ctx.country.map (fun co => name ++ (" (".data) ++ co ++ (")".data)),
    some (name ++ (" (state)".data)),
    some (name ++ (" (province)".data)),
    some (name ++ (" (district)".data)),
    some (name ++ (" (territory)".data)),
    some name]).filterMap (fun o =>
      match o with
      | some s => if s = [] then none else some s
      | none => none)

/-- Record built from a successful summary response. -/
def buildWikiRecord (name : Str) (j : WikiSummary) : InfoRecord :=
  { title := jsOrStr j.title name,
    description := jsOrStr j.description (jsOrStr j.extract []),
    summary := jsOrStr j.extract [],
    image := firstTruthy [j.originalimage, j.thumbnail],
    flag := none,
    coat := none,
    sourceUrl := jsTruthyOpt j.pageUrl }

/-- Record returned when every candidate fails: bare name, empty fields. -/
def emptyWikiRecord (name : Str) : InfoRecord :=
  { title := name, description := [], summary := [],
    image := none, flag := none, coat := none, sourceUrl := none }

/-- Candidate loop of fetchSubnationalInfo over a title list. -/
def fetchSubnationalGo (name : Str) (oracle : Str → Option WikiSummary) :
    List Str → InfoRecord
  | [] => emptyWikiRecord name
  | t :: ts =>
    match oracle t with
    | some j => buildWikiRecord name j
    | none => fetchSubnationalGo name oracle ts

/-- Model of the source function fetchSubnationalInfo. -/
def fetchSubnationalInfo (name : Str) (ctx : WikiCtx)
    (oracle : Str → Option WikiSummary) : InfoRecord :=
  fetchSubnationalGo name oracle (tryTitles name ctx)

/-- Modelled from the spec: the candidate order the specification claims
for fetchSubnationalInfo, to be compared with tryTitles. -/
def specClaimedTitles (name co : Str) : List Str :=
  [name ++ (", ".data) ++ co,
   name ++ (" (".data) ++ co ++ (")".data),
   name ++ (" (state)".data),
   name ++ (" (province)".data),
   name ++ (" (district)".data),
   name ++ (" (territory)".data),
   name]

/-
Quiz state machine.  The component state relevant to the claims is
gathered in one record; the name pool (namesRef) and the random draws
(Math.random) are passed as parameters, a draw being modeled by a
natural number r selecting index r mod length, so that every index is
reached by some draw.
-/

inductive Mode where
  | explore
  | click
  | type
deriving DecidableEq

structure GameState where
  mode : Mode
  prompt : Option Str
  input : Str
  score : Nat
  streak : Nat
  lives : Nat
  message : Str
  gameOver : Bool
  timerOn : Bool
  duration : Nat
  timeLeft : Nat
deriving DecidableEq

/-- Uniform random pick from a list: index r mod length. -/
def pickR (l : List Str) (r : Nat) : Str :=
  (l.get? (r % l.length)).getD []

/-- Candidate list after a wrong click: the pool without the previous
prompt and without the clicked name. -/
def missCands (pool : List Str) (p name : Str) : List Str :=
  pool.filter (fun n => !(norm n == norm p) && !(norm n == norm name))

/-- Fallback list after a wrong click: the pool without the previous
prompt only. -/
def missFallback (pool : List Str) (p : Str) : List Str :=
  pool.filter (fun n => !(norm n == norm p))

/-- Model of the source handler onGeoClick.  Lives are natural numbers;
Nat subtraction realizes Math.max(0, l - 1) exactly. -/
def onGeoClick (pool : List Str) (s : GameState) (name : Str) (r : Nat) :
    GameState :=
  if s.gameOver then s
  else if name = [] then s
  else
    match s.mode with
    | .explore => s
    | .type => { s with message := ("A region is highlighted. Type its name to score.".data) }
    | .click =>
      match s.prompt with
      | none => s
      | some p =>
        if norm name = norm p then
          { s with score := s.score + 1, streak := s.streak + 1,
                   message := ("Correct!".data),
                   prompt := if pool ≠ [] then some (pickR pool r) else s.prompt,
                   timeLeft := s.duration }
        else
          let lives' := s.lives - 1
          let cands := missCands pool p name
          let fb := missFallback pool p
          { s with streak := 0,
                   lives := lives',
                   gameOver := if lives' = 0 then true else s.gameOver,
                   message := ("That was ".data) ++ name ++ (".".data),
                   prompt := if cands ≠ [] then some (pickR cands r)
                             else if fb ≠ [] then some (pickR fb r) else none,
                   timeLeft := s.duration }

/-- Model of the source handler submitTyped. -/
def submitTyped (pool : List Str) (s : GameState) (r : Nat) : GameState :=
  if s.gameOver then s
  else
    match s.prompt with
    | none => s
    | some p =>
      if matchesAnswer s.input p then
        { s with score := s.score + 1, streak := s.streak + 1,
                 message := ("Correct!".data),
                 input := [],
                 prompt := if pool ≠ [] then some (pickR pool r) else s.prompt,
                 timeLeft := s.duration }
      else
        let lives' := s.lives - 1
        { s with streak := 0,
                 lives := lives',
                 gameOver := if lives' = 0 then true else s.gameOver,
                 message := ("Not quite. Try again.".data),
                 input := [],
                 timeLeft := s.duration }

/-- Model of one countdown interval firing: the effect installs the
interval only when the timer is on, the game is not over and the mode is
click or type; a firing at a count of at most one costs a life and
restarts the count at the configured duration. -/
def tick (s : GameState) : GameState :=
  if !s.timerOn || s.gameOver || !(s.mode == .click || s.mode == .type) then s
  else if s.timeLeft ≤ 1 then
    let lives' := s.lives - 1
    { s with lives := lives',
             gameOver := if lives' = 0 then true else s.gameOver,
             timeLeft := s.duration }
  else { s with timeLeft := s.timeLeft - 1 }

/-- Iterated ticks. -/
def ticks : Nat → GameState → GameState
  | 0, s => s
  | n + 1, s => ticks n (tick s)

/-- Model of the source handler resetAll: restores lives, zeroes score
and streak, clears message, input, prompt and game-over. -/
def resetAll (s : GameState) : GameState :=
  { s with score := 0, streak := 0, lives := 5, message := [], input := [],
           prompt := none, gameOver := false, timeLeft := s.duration }

/-- Sequences of Click-mode misses: each event carries the clicked name
and the random draw, and is a genuine miss at its state (game active,
click mode, a prompt present, a nonempty clicked name that does not
normalize to the prompt). -/
inductive MissSeq (pool : List Str) : GameState → List (Str × Nat) → GameState → Prop where
  | nil (s : GameState) : MissSeq pool s [] s
  | cons {s s' : GameState} {p name : Str} {r : Nat} {evs : List (Str × Nat)} :
      s.gameOver = false → s.mode = .click → s.prompt = some p →
      name ≠ [] → norm name ≠ norm p →
      MissSeq pool (onGeoClick pool s name r) evs s' →
      MissSeq pool s ((name, r) :: evs) s'

/-
High-score persistence.  The external key-value store maps keys to an
optional stored number; absence reads as zero, following
Number(localStorage.getItem(k)) || 0.
-/

abbrev Store := Str → Option Nat

/-- Key of the persisted high score for a dataset and mode pair. -/
def hsKey (d m : Str) : Str := ("mqg_hs_v1_".data) ++ d ++ ("_".data) ++ m

/-- Stored high score read with the zero default. -/
def getHS (st : Store) (k : Str) : Nat := (st k).getD 0

/-- Model of the source function bumpHighScore on the store for key k. -/
def bumpHighScore (st : Store) (k : Str) (val : Nat) : Store :=
  if getHS st k < val then (fun q => if q = k then some val else st q) else st

/-- Scoring events that touch the persisted store: a high-score bump for
a dataset and mode, or resetAll, which zeroes score and streak but never
writes the store. -/
inductive HSEvent where
  | bump (d m : Str) (val : Nat)
  | reset

def applyEvent (st : Store) : HSEvent → Store
  | .bump d m val => bumpHighScore st (hsKey d m) val
  | .reset => st

def applyEvents (st : Store) : List HSEvent → Store
  | [] => st
  | e :: es => applyEvents (applyEvent st e) es

/-- Feature builder used by the geometry-validation claims. -/
def mkFeat (t : Str) (c : JVal) : Option Feature :=
  some { geometry := some { gtype := t, coordinates := c } }

/-- Concrete Click-mode state used by the C1 scenario. -/
def c1state : GameState :=
  { mode := .click, prompt := some ("Ontario".data), input := [], score := 0,
    streak := 2, lives := 5, message := [], gameOver := false,
    timerOn := false, duration := 20, timeLeft := 20 }

/-- Concrete two-region pool used by the C2 scenario. -/
def c2pool : List Str := [("Ontario".data), ("Quebec".data)]

/-- Concrete active state with five lives used by the C2 scenario. -/
def c2state : GameState :=
  { mode := .click, prompt := some ("Ontario".data), input := [], score := 4,
    streak := 3, lives := 5, message := [], gameOver := false,
    timerOn := false, duration := 20, timeLeft := 20 }

/-- Concrete Type-mode state used by the C8 scenario. -/
def txstate : GameState :=
  { mode := .type, prompt := some ("Texas".data), input := ("tx".data), score := 2,
    streak := 3, lives := 5, message := [], gameOver := false,
    timerOn := false, duration := 20, timeLeft := 20 }

/-- Concrete Type-mode state with a wrong pending input used by the C8
counterexample. -/
def c8typeState : GameState :=
  { mode := .type, prompt := some ("Ontario".data), input := ("Quebec".data), score := 0,
    streak := 0, lives := 5, message := [], gameOver := false,
    timerOn := false, duration := 20, timeLeft := 20 }

/-- Concrete countdown state with one life used by the C9 scenario. -/
def t9state : GameState :=
  { mode := .click, prompt := some ("Texas".data), input := [], score := 0,
    streak := 0, lives := 1, message := [], gameOver := false,
    timerOn := true, duration := 20, timeLeft := 1 }

/-
Helper lemmas shared by the claim theorems.
-/

theorem pickR_mem (l : List Str) (r : Nat) (h : l ≠ []) : pickR l r ∈ l := by
  have hlen : 0 < l.length := List.length_pos.mpr h
  have hlt : r % l.length < l.length := Nat.mod_lt _ hlen
  unfold pickR
  rw [List.get?_eq_get hlt]
  exact List.get_mem l _ _

theorem pickR_at (l : List Str) (i : Nat) (hi : i < l.length) :
    pickR l i = l.get ⟨i, hi⟩ := by
  unfold pickR
  rw [Nat.mod_eq_of_lt hi, List.get?_eq_get hi]
  rfl

theorem onGeoClick_gameOver (pool : List Str) (s : GameState) (name : Str) (r : Nat)
    (h : s.gameOver = true) : onGeoClick pool s name r = s := by
  simp [onGeoClick, h]

theorem submitTyped_gameOver (pool : List Str) (s : GameState) (r : Nat)
    (h : s.gameOver = true) : submitTyped pool s r = s := by
  simp [submitTyped, h]

theorem onGeoClick_miss (pool : List Str) (s : GameState) (name : Str) (r : Nat)
    (p : Str) (hgo : s.gameOver = false) (hm : s.mode = Mode.click)
    (hp : s.prompt = some p) (hn : name ≠ []) (hne : norm name ≠ norm p) :
    onGeoClick pool s name r =
      { s with streak := 0, lives := s.lives - 1,
               gameOver := if s.lives - 1 = 0 then true else s.gameOver,
               message := ("That was ".data) ++ name ++ (".".data),
               prompt := if missCands pool p name ≠ [] then
                           some (pickR (missCands pool p name) r)
                         else if missFallback pool p ≠ [] then
                           some (pickR (missFallback pool p) r)
                         else none,
               timeLeft := s.duration } := by
  rw [onGeoClick, if_neg (by simp [hgo]), if_neg hn]
  rw [hm, hp]
  simp only [if_neg hne]

theorem tick_gameOver (s : GameState) (h : s.gameOver = true) : tick s = s := by
  simp [tick, h]

theorem ticks_gameOver (s : GameState) (n : Nat) (h : s.gameOver = true) :
    ticks n s = s := by
  induction n with
  | zero => rfl
  | succ n ih => rw [ticks, tick_gameOver s h, ih]

theorem fetchSubnationalGo_all_none (name : Str) (oracle : Str → Option WikiSummary)
    (ts : List Str) (h : ∀ t ∈ ts, oracle t = none) :
    fetchSubnationalGo name oracle ts = emptyWikiRecord name := by
  induction ts with
  | nil => rfl
  | cons t ts ih =>
    rw [fetchSubnationalGo, h t (List.mem_cons_self t ts)]
    exact ih (fun u hu => h u (List.mem_cons_of_mem t hu))

theorem fetchSubnationalGo_first_success (name : Str)
    (oracle : Str → Option WikiSummary) (pre post : List Str) (t : Str)
    (j : WikiSummary) (hpre : ∀ u ∈ pre, oracle u = none) (ht : oracle t = some j) :
    fetchSubnationalGo name oracle (pre ++ t :: post) = buildWikiRecord name j := by
  induction pre with
  | nil => rw [List.nil_append, fetchSubnationalGo, ht]
  | cons u us ih =>
    rw [List.cons_append, fetchSubnationalGo, hpre u (List.mem_cons_self u us)]
    exact ih (fun v hv => hpre v (List.mem_cons_of_mem u hv))

/-- C4: matchesAnswer returns true exactly when the normalized inputs are
equal or some alias of the normalized canonical name normalizes to the
normalized answer; a canonical name absent from the table has an empty
alias set; matching is reflexive; the PEI, NY and Ivory Coast alias
round-trips all succeed. -/
theorem mqg_C4_theorem :
    (∀ a c : Str, matchesAnswer a c = true ↔
       (norm a = norm c ∨ ∃ alt ∈ aliasesOf (norm c), norm alt = norm a)) ∧
    (∀ c : Str, matchesAnswer c c = true) ∧
    (∀ k : Str, (∀ e ∈ NAME_ALIASES, e.1 ≠ k) → aliasesOf k = []) ∧
    matchesAnswer ("PEI".data) ("Prince Edward Island".data) = true ∧
    matchesAnswer ("NY".data) ("New York".data) = true ∧
    matchesAnswer ("Ivory Coast".data)
      (("Cote d".data) ++ [apos] ++ ("Ivoire".data)) = true := by
  refine ⟨?_, ?_, ?_, by decide, by decide, by decide⟩
  · intro a c
    by_cases h : norm a = norm c
    · simp [matchesAnswer, h]
    · simp only [matchesAnswer]
      rw [if_neg (by simpa using h)]
      constructor
      · intro hany
        rcases List.any_eq_true.mp hany with ⟨alt, hmem, hbeq⟩
        exact Or.inr ⟨alt, hmem, beq_iff_eq.mp hbeq⟩
      · intro hor
        rcases hor with h' | ⟨alt, hmem, he⟩
        · exact absurd h' h
        · exact List.any_eq_true.mpr ⟨alt, hmem, beq_iff_eq.mpr he⟩
  · intro c
    simp [matchesAnswer]
  · intro k h
    unfold aliasesOf
    rw [List.find?_eq_none.mpr (fun e he => by simp [h e he])]
    rfl

/-- C4 witness: the absent-key clause applied to a concrete key that is
not in the alias table. -/
theorem mqg_C4_witness :
    aliasesOf ("atlantis".data) = [] :=
  mqg_C4_theorem.2.2.1 ("atlantis".data) (by decide)

/-- C5: isRenderableFeature rejects a missing feature, a missing
geometry, falsy coordinates, any geometry type other than Polygon and
MultiPolygon, a Polygon with empty coordinates or an empty first ring and
a MultiPolygon with no polygons; it accepts a Polygon with one ring of at
least one finite coordinate pair and a MultiPolygon whose first polygon
passes the same probe. -/
theorem mqg_C5_theorem :
    isRenderableFeature none = false ∧
    isRenderableFeature (some { geometry := none }) = false ∧
    (∀ t : Str, ∀ c : JVal, truthyJ c = false → isRenderableFeature (mkFeat t c) = false) ∧
    (∀ t : Str, ∀ c : JVal, t ≠ ("Polygon".data) → t ≠ ("MultiPolygon".data) →
       isRenderableFeature (mkFeat t c) = false) ∧
    isRenderableFeature (mkFeat ("Polygon".data) (JVal.jarr [])) = false ∧
    isRenderableFeature (mkFeat ("Polygon".data)
      (JVal.jarr [JVal.jarr [], JVal.jarr []])) = false ∧
    isRenderableFeature (mkFeat ("MultiPolygon".data) (JVal.jarr [])) = false ∧
    isRenderableFeature (mkFeat ("Polygon".data)
      (JVal.jarr [JVal.jarr [
        JVal.jarr [JVal.jnum 0 true, JVal.jnum 0 true],
        JVal.jarr [JVal.jnum 1 true, JVal.jnum 1 true],
        JVal.jarr [JVal.jnum 1 true, JVal.jnum 0 true],
        JVal.jarr [JVal.jnum 0 true, JVal.jnum 0 true]]])) = true ∧
    isRenderableFeature (mkFeat ("MultiPolygon".data)
      (JVal.jarr [JVal.jarr [JVal.jarr [
        JVal.jarr [JVal.jnum 0 true, JVal.jnum 0 true]]]])) = true := by
  refine ⟨rfl, rfl, ?_, ?_, by decide, by decide, by decide, by decide, by decide⟩
  · intro t c h
    simp [isRenderableFeature, mkFeat, h]
  · intro t c h1 h2
    simp [isRenderableFeature, mkFeat, h1, h2]

/-- C5 witness: the general clauses applied to a concrete falsy
coordinate payload and a concrete Point geometry. -/
theorem mqg_C5_witness :
    isRenderableFeature (mkFeat ("Polygon".data) JVal.jnull) = false ∧
    isRenderableFeature (mkFeat ("Point".data)
      (JVal.jarr [JVal.jnum 0 true])) = false :=
  ⟨mqg_C5_theorem.2.2.1 _ _ rfl,
   mqg_C5_theorem.2.2.2.1 _ _ (by decide) (by decide)⟩

/-- C6: for every key, a high-score bump yields the maximum of the stored
value and the candidate, leaves all other keys unchanged, writes nothing
when the candidate does not exceed the stored value, and across any
sequence of scoring events and resets the stored value never decreases. -/
theorem mqg_C6_theorem :
    (∀ (st : Store) (k : Str) (val : Nat),
       getHS (bumpHighScore st k val) k = max (getHS st k) val) ∧
    (∀ (st : Store) (k : Str) (val : Nat) (q : Str), q ≠ k →
       bumpHighScore st k val q = st q) ∧
    (∀ (st : Store) (k : Str) (val : Nat), val ≤ getHS st k →
       bumpHighScore st k val = st) ∧
    (∀ (st : Store) (evs : List HSEvent) (k : Str),
       getHS st k ≤ getHS (applyEvents st evs) k) := by
  have hbump : ∀ (st : Store) (k : Str) (val : Nat),
      getHS (bumpHighScore st k val) k = max (getHS st k) val := by
    intro st k val
    unfold bumpHighScore
    by_cases h : getHS st k < val
    · rw [if_pos h, Nat.max_eq_right (Nat.le_of_lt h)]
      simp [getHS]
    · rw [if_neg h, Nat.max_eq_left (Nat.le_of_not_lt h)]
  have hmono : ∀ (st : Store) (e : HSEvent) (k : Str),
      getHS st k ≤ getHS (applyEvent st e) k := by
    intro st e k
    cases e with
    | reset => exact Nat.le_refl _
    | bump d m val =>
      show getHS st k ≤ getHS (bumpHighScore st (hsKey d m) val) k
      by_cases hk : k = hsKey d m
      · subst hk
        rw [hbump]
        exact Nat.le_max_left _ _
      · unfold bumpHighScore
        by_cases h : getHS st (hsKey d m) < val
        · rw [if_pos h]
          simp [getHS, hk]
        · rw [if_neg h]
  refine ⟨hbump, ?_, ?_, ?_⟩
  · intro st k val q hq
    unfold bumpHighScore
    by_cases h : getHS st k < val
    · rw [if_pos h]
      simp [hq]
    · rw [if_neg h]
  · intro st k val h
    unfold bumpHighScore
    rw [if_neg (Nat.not_lt.mpr h)]
  · intro st evs
    induction evs generalizing st with
    | nil => intro k; exact Nat.le_refl _
    | cons e es ih =>
      intro k
      exact Nat.le_trans (hmono st e k) (ih (applyEvent st e) k)

/-- C6 witness: bumping with a smaller value leaves a concrete store
unchanged while a larger value raises the stored score. -/
theorem mqg_C6_witness :
    bumpHighScore (fun _ => some 7) (hsKey ("world".data) ("click".data)) 3 =
      (fun _ => some 7) ∧
    getHS (bumpHighScore (fun _ => some 7)
      (hsKey ("world".data) ("click".data)) 9)
      (hsKey ("world".data) ("click".data)) = max 7 9 :=
  ⟨mqg_C6_theorem.2.2.1 _ _ 3 (by decide),
   mqg_C6_theorem.1 _ _ 9⟩

/-- C7 counterexample: for a context that carries a city (the NYC
dataset), the first attempted title is Name, City — not Name, Country as
the claim orders the attempts — so the attempted sequence differs from
the claimed one. -/
theorem mqg_C7_counterexample :
    (tryTitles ("Manhattan".data)
      { city := some ("New York City".data),
        country := some ("United States".data) }).head? =
      some ("Manhattan, New York City".data) ∧
    tryTitles ("Manhattan".data)
      { city := some ("New York City".data),
        country := some ("United States".data) } ≠
      specClaimedTitles ("Manhattan".data) ("United States".data) := by
  exact ⟨by decide, by decide⟩

/-- C7 as amended: for a context without a city the candidate titles are
exactly the claimed sequence Name, Country / Name (Country) / Name
(state) / Name (province) / Name (district) / Name (territory) / bare
name; a context with a city prepends Name, City; the fetcher returns the
record built from the first successful candidate, swallowing every
earlier failure, and degrades to a bare-name record with empty fields
when every candidate fails, never failing itself. -/
theorem mqg_C7_theorem :
    (∀ name co : Str, name ≠ [] →
       tryTitles name { city := none, country := some co } =
         specClaimedTitles name co) ∧
    (∀ name ci co : Str, name ≠ [] →
       tryTitles name { city := some ci, country := some co } =
         (name ++ (", ".data) ++ ci) :: specClaimedTitles name co) ∧
    (∀ (name : Str) (ctx : WikiCtx) (oracle : Str → Option WikiSummary),
       (∀ t ∈ tryTitles name ctx, oracle t = none) →
       fetchSubnationalInfo name ctx oracle = emptyWikiRecord name) ∧
    (∀ (name : Str) (oracle : Str → Option WikiSummary) (pre post : List Str)
       (t : Str) (j : WikiSummary),
       (∀ u ∈ pre, oracle u = none) → oracle t = some j →
       fetchSubnationalGo name oracle (pre ++ t :: post) = buildWikiRecord name j) ∧
    (∀ (name : Str) (ctx : WikiCtx) (oracle : Str → Option WikiSummary),
       fetchSubnationalInfo name ctx oracle =
         fetchSubnationalGo name oracle (tryTitles name ctx)) := by
  have hmid : ∀ (a b c : Str), c ≠ [] → ¬(a ++ c ++ b = []) := by
    intro a b c hc h
    rcases List.append_eq_nil.mp h with ⟨h1, _⟩
    rcases List.append_eq_nil.mp h1 with ⟨_, h3⟩
    exact hc h3
  have hright : ∀ (a b : Str), b ≠ [] → ¬(a ++ b = []) := by
    intro a b hb h
    exact hb (List.append_eq_nil.mp h).2
  refine ⟨?_, ?_, ?_, fetchSubnationalGo_first_success, fun _ _ _ => rfl⟩
  · intro name co h
    have h1 : ¬(name ++ (", ".data) ++ co = []) := hmid name co (", ".data) (by decide)
    have h2 : ¬(name ++ (" (".data) ++ co ++ (")".data) = []) :=
      hright _ (")".data) (by decide)
    have h3 : ¬(name ++ (" (state)".data) = []) := hright _ _ (by decide)
    have h4 : ¬(name ++ (" (province)".data) = []) := hright _ _ (by decide)
    have h5 : ¬(name ++ (" (district)".data) = []) := hright _ _ (by decide)
    have h6 : ¬(name ++ (" (territory)".data) = []) := hright _ _ (by decide)
    simp [tryTitles, specClaimedTitles, h1, h2, h3, h4, h5, h6, h]
  · intro name ci co h
    have h0 : ¬(name ++ (", ".data) ++ ci = []) := hmid name ci (", ".data) (by decide)
    have h1 : ¬(name ++ (", ".data) ++ co = []) := hmid name co (", ".data) (by decide)
    have h2 : ¬(name ++ (" (".data) ++ co ++ (")".data) = []) :=
      hright _ (")".data) (by decide)
    have h3 : ¬(name ++ (" (state)".data) = []) := hright _ _ (by decide)
    have h4 : ¬(name ++ (" (province)".data) = []) := hright _ _ (by decide)
    have h5 : ¬(name ++ (" (district)".data) = []) := hright _ _ (by decide)
    have h6 : ¬(name ++ (" (territory)".data) = []) := hright _ _ (by decide)
    simp [tryTitles, specClaimedTitles, h0, h1, h2, h3, h4, h5, h6, h]
  · intro name ctx oracle h
    exact fetchSubnationalGo_all_none name oracle (tryTitles name ctx) h

/-- C7 witness: the amended clauses applied at the Canada context with a
concrete oracle that answers only the parenthesized-country candidate. -/
theorem mqg_C7_witness :
    tryTitles ("Quebec".data) { city := none, country := some ("Canada".data) } =
      specClaimedTitles ("Quebec".data) ("Canada".data) ∧
    fetchSubnationalInfo ("Quebec".data)
      { city := none, country := some ("Canada".data) } (fun _ => none) =
      emptyWikiRecord ("Quebec".data) :=
  ⟨mqg_C7_theorem.1 ("Quebec".data) ("Canada".data) (by decide),
   mqg_C7_theorem.2.2.1 ("Quebec".data) _ (fun _ => none) (fun _ _ => rfl)⟩

/-- C9: while the countdown is enabled in Click or Type mode on an active
session, a tick with more than one second left decrements the counter; a
tick with at most one second left costs exactly one life with the
clamp-at-zero and game-over transition of a miss and restarts the counter
at the configured duration; once the game is over, ticks change nothing;
from one life and an expiring counter, lives become zero, game over
becomes true, the counter resets to the duration, and all later ticks are
inert. -/
theorem mqg_C9_theorem :
    (∀ s : GameState, s.timerOn = true → s.gameOver = false →
       (s.mode = Mode.click ∨ s.mode = Mode.type) → 1 < s.timeLeft →
       tick s = { s with timeLeft := s.timeLeft - 1 }) ∧
    (∀ s : GameState, s.timerOn = true → s.gameOver = false →
       (s.mode = Mode.click ∨ s.mode = Mode.type) → s.timeLeft ≤ 1 →
       tick s = { s with lives := s.lives - 1,
                         gameOver := if s.lives - 1 = 0 then true else s.gameOver,
                         timeLeft := s.duration }) ∧
    (∀ (s : GameState) (n : Nat), s.gameOver = true → ticks n s = s) ∧
    ((tick t9state).lives = 0 ∧ (tick t9state).gameOver = true ∧
     (tick t9state).timeLeft = t9state.duration ∧
     ∀ n, ticks n (tick t9state) = tick t9state) := by
  refine ⟨?_, ?_, fun s n h => ticks_gameOver s n h, by decide, by decide, by decide, ?_⟩
  · intro s hOn hGo hM hT
    rcases hM with hm | hm <;>
      simp [tick, hOn, hGo, hm, Nat.not_le.mpr hT]
  · intro s hOn hGo hM hT
    rcases hM with hm | hm <;>
      simp [tick, hOn, hGo, hm, hT]
  · intro n
    exact ticks_gameOver (tick t9state) n (by decide)

/-- C9 witness: the tick clauses applied to the concrete one-life state
and to a concrete running state with three seconds left. -/
theorem mqg_C9_witness :
    tick { t9state with timeLeft := 3 } =
      { t9state with timeLeft := 2 } ∧
    tick t9state =
      { t9state with lives := 0, gameOver := true, timeLeft := 20 } := by
  constructor
  · have h := mqg_C9_theorem.1 { t9state with timeLeft := 3 } (by decide) (by decide)
      (Or.inl (by decide)) (by decide)
    exact h
  · have h := mqg_C9_theorem.2.1 t9state (by decide) (by decide)
      (Or.inl (by decide)) (by decide)
    exact h

/-- C1 counterexample: with the one-element pool Ontario, prompt Ontario
and a wrong click named Quebec, both candidate sets are empty and the
code clears the prompt to none instead of leaving it unchanged. -/
theorem mqg_C1_counterexample :
    (onGeoClick [("Ontario".data)] c1state ("Quebec".data) 0).prompt = none ∧
    c1state.prompt = some ("Ontario".data) ∧ c1state.gameOver = false := by
  decide

/-- C1 as amended: after an incorrect click on an active Click-mode
session, the message names the clicked region; the next prompt is drawn
from the pool without the previous prompt and the clicked name when that
set is nonempty, otherwise from the pool without the previous prompt
only, each draw index reaching each candidate; when both sets are empty
the prompt is cleared to none; in the concrete two-element scenario the
message becomes That was Quebec. and the next prompt is Quebec. -/
theorem mqg_C1_theorem :
    (∀ (pool : List Str) (s : GameState) (name : Str) (r : Nat) (p : Str),
       s.gameOver = false → s.mode = Mode.click → s.prompt = some p →
       name ≠ [] → norm name ≠ norm p →
       ((onGeoClick pool s name r).message = ("That was ".data) ++ name ++ (".".data) ∧
        (missCands pool p name ≠ [] →
          (onGeoClick pool s name r).prompt = some (pickR (missCands pool p name) r) ∧
          pickR (missCands pool p name) r ∈ missCands pool p name) ∧
        (missCands pool p name = [] → missFallback pool p ≠ [] →
          (onGeoClick pool s name r).prompt = some (pickR (missFallback pool p) r) ∧
          pickR (missFallback pool p) r ∈ missFallback pool p) ∧
        (missCands pool p name = [] → missFallback pool p = [] →
          (onGeoClick pool s name r).prompt = none))) ∧
    (∀ (pool : List Str) (s : GameState) (name p c : Str),
       s.gameOver = false → s.mode = Mode.click → s.prompt = some p →
       name ≠ [] → norm name ≠ norm p → c ∈ missCands pool p name →
       ∃ r, (onGeoClick pool s name r).prompt = some c) ∧
    (∀ r : Nat,
       (onGeoClick [("Ontario".data), ("Quebec".data)] c1state ("Quebec".data) r).message =
         ("That was Quebec.".data) ∧
       (onGeoClick [("Ontario".data), ("Quebec".data)] c1state ("Quebec".data) r).prompt =
         some ("Quebec".data)) := by
  refine ⟨?_, ?_, ?_⟩
  · intro pool s name r p hgo hm hp hn hne
    rw [onGeoClick_miss pool s name r p hgo hm hp hn hne]
    refine ⟨rfl, ?_, ?_, ?_⟩
    · intro hc
      constructor
      · show (if missCands pool p name ≠ [] then some (pickR (missCands pool p name) r)
              else if missFallback pool p ≠ [] then some (pickR (missFallback pool p) r)
              else none) = some (pickR (missCands pool p name) r)
        rw [if_pos hc]
      · exact pickR_mem _ r hc
    · intro hc hf
      constructor
      · show (if missCands pool p name ≠ [] then some (pickR (missCands pool p name) r)
              else if missFallback pool p ≠ [] then some (pickR (missFallback pool p) r)
              else none) = some (pickR (missFallback pool p) r)
        rw [if_neg (by simp [hc]), if_pos hf]
      · exact pickR_mem _ r hf
    · intro hc hf
      show (if missCands pool p name ≠ [] then some (pickR (missCands pool p name) r)
            else if missFallback pool p ≠ [] then some (pickR (missFallback pool p) r)
            else none) = none
      rw [if_neg (by simp [hc]), if_neg (by simp [hf])]
  · intro pool s name p c hgo hm hp hn hne hmem
    rcases List.mem_iff_get.mp hmem with ⟨⟨i, hi⟩, hget⟩
    refine ⟨i, ?_⟩
    rw [onGeoClick_miss pool s name i p hgo hm hp hn hne]
    show (if missCands pool p name ≠ [] then some (pickR (missCands pool p name) i)
          else if missFallback pool p ≠ [] then some (pickR (missFallback pool p) i)
          else none) = some c
    rw [if_pos (List.ne_nil_of_mem hmem), pickR_at _ i hi, hget]
  · intro r
    rw [onGeoClick_miss [("Ontario".data), ("Quebec".data)] c1state ("Quebec".data) r
      ("Ontario".data) rfl rfl rfl (by decide) (by decide)]
    constructor
    · rfl
    · have hc : missCands [("Ontario".data), ("Quebec".data)] ("Ontario".data)
          ("Quebec".data) = [] := by decide
      have hf : missFallback [("Ontario".data), ("Quebec".data)] ("Ontario".data) =
          [("Quebec".data)] := by decide
      show (if missCands [("Ontario".data), ("Quebec".data)] ("Ontario".data)
              ("Quebec".data) ≠ [] then
              some (pickR (missCands [("Ontario".data), ("Quebec".data)]
                ("Ontario".data) ("Quebec".data)) r)
            else if missFallback [("Ontario".data), ("Quebec".data)]
              ("Ontario".data) ≠ [] then
              some (pickR (missFallback [("Ontario".data), ("Quebec".data)]
                ("Ontario".data)) r)
            else none) = some ("Quebec".data)
      rw [if_neg (by simp [hc]), if_pos (by rw [hf]; decide), hf]
      simp [pickR, Nat.mod_one]

/-- C1 witness: the amended clauses applied to the concrete two-element
scenario, whose candidate set is empty and whose fallback is Quebec. -/
theorem mqg_C1_witness :
    (onGeoClick [("Ontario".data), ("Quebec".data)] c1state ("Quebec".data) 5).message =
      ("That was Quebec.".data) ∧
    (onGeoClick [("Ontario".data), ("Quebec".data)] c1state ("Quebec".data) 5).prompt =
      some ("Quebec".data) :=
  mqg_C1_theorem.2.2 5

theorem missSeq_props (pool : List Str) :
    ∀ {s : GameState} {evs : List (Str × Nat)} {s' : GameState},
      MissSeq pool s evs s' → (s.gameOver = true ↔ s.lives = 0) →
      evs.length ≤ s.lives ∧ s'.lives = s.lives - evs.length ∧
      (evs ≠ [] → s'.streak = 0) ∧ (s'.gameOver = true ↔ s'.lives = 0) ∧
      (evs = [] → s' = s) := by
  intro s evs s' hseq
  induction hseq with
  | nil s =>
    intro hinv
    exact ⟨Nat.zero_le _, by simp, by simp, hinv, fun _ => rfl⟩
  | @cons s s' p name r evs hgo hm hp hn hne _ ih =>
    intro hinv
    have hstep := onGeoClick_miss pool s name r p hgo hm hp hn hne
    have hlpos : 1 ≤ s.lives := by
      rcases Nat.eq_zero_or_pos s.lives with h0 | h
      · have := hinv.mpr h0
        rw [hgo] at this
        exact absurd this (by decide)
      · exact h
    have hl1 : (onGeoClick pool s name r).lives = s.lives - 1 := by rw [hstep]
    have hs1 : (onGeoClick pool s name r).streak = 0 := by rw [hstep]
    have hinv1 : ((onGeoClick pool s name r).gameOver = true ↔
        (onGeoClick pool s name r).lives = 0) := by
      rw [hstep]
      by_cases h : s.lives - 1 = 0
      · simp [h]
      · simp [h, hgo]
    obtain ⟨ih1, ih2, ih3, ih4, ih5⟩ := ih hinv1
    refine ⟨?_, ?_, ?_, ih4, by intro hh; cases hh⟩
    · rw [hl1] at ih1
      simp only [List.length_cons]
      calc evs.length + 1 ≤ (s.lives - 1) + 1 := Nat.succ_le_succ ih1
        _ = s.lives := Nat.succ_pred_eq_of_pos hlpos
    · rw [ih2, hl1, List.length_cons, Nat.sub_sub, Nat.add_comm]
    · intro _
      cases hevs : evs with
      | nil =>
        rw [ih5 hevs]
        exact hs1
      | cons e es =>
        exact ih3 (by simp [hevs])

/-- C2: across any sequence of Click-mode misses from a state whose
game-over flag agrees with lives being zero, the number of misses never
exceeds the starting lives, lives drop by exactly one per miss, the
streak is zero after the last miss (every prefix being itself such a
sequence), the game-over flag afterwards holds exactly when lives reached
zero, and once the game is over clicks and submissions change nothing. -/
theorem mqg_C2_theorem :
    (∀ (pool : List Str) (s : GameState) (evs : List (Str × Nat)) (s' : GameState),
       MissSeq pool s evs s' → (s.gameOver = true ↔ s.lives = 0) →
       evs.length ≤ s.lives ∧ s'.lives = s.lives - evs.length ∧
       (evs ≠ [] → s'.streak = 0) ∧ (s'.gameOver = true ↔ s'.lives = 0)) ∧
    (∀ (pool : List Str) (s : GameState) (name : Str) (r : Nat),
       s.gameOver = true → onGeoClick pool s name r = s ∧ submitTyped pool s r = s) := by
  constructor
  · intro pool s evs s' hseq hinv
    obtain ⟨h1, h2, h3, h4, _⟩ := missSeq_props pool hseq hinv
    exact ⟨h1, h2, h3, h4⟩
  · intro pool s name r h
    exact ⟨onGeoClick_gameOver pool s name r h, submitTyped_gameOver pool s r h⟩

/-- C2 witness: two concrete misses from five lives: lives end at three,
the streak at zero, and game over remains equivalent to zero lives. -/
theorem mqg_C2_witness :
    (([(("Quebec".data), 0), (("Ontario".data), 0)] : List (Str × Nat))).length ≤
      c2state.lives ∧
    (onGeoClick c2pool (onGeoClick c2pool c2state ("Quebec".data) 0)
      ("Ontario".data) 0).lives = c2state.lives -
      (([(("Quebec".data), 0), (("Ontario".data), 0)] : List (Str × Nat))).length ∧
    ((([(("Quebec".data), 0), (("Ontario".data), 0)] : List (Str × Nat))) ≠ [] →
      (onGeoClick c2pool (onGeoClick c2pool c2state ("Quebec".data) 0)
        ("Ontario".data) 0).streak = 0) ∧
    ((onGeoClick c2pool (onGeoClick c2pool c2state ("Quebec".data) 0)
        ("Ontario".data) 0).gameOver = true ↔
      (onGeoClick c2pool (onGeoClick c2pool c2state ("Quebec".data) 0)
        ("Ontario".data) 0).lives = 0) := by
  have hseq : MissSeq c2pool c2state
      ([(("Quebec".data), 0), (("Ontario".data), 0)] : List (Str × Nat))
      (onGeoClick c2pool (onGeoClick c2pool c2state ("Quebec".data) 0)
        ("Ontario".data) 0) :=
    MissSeq.cons rfl rfl rfl (by decide) (by decide)
      (MissSeq.cons rfl rfl rfl (by decide) (by decide) (MissSeq.nil _))
  exact mqg_C2_theorem.1 c2pool c2state _ _ hseq (by decide)

theorem submitTyped_correct (pool : List Str) (s : GameState) (r : Nat) (p : Str)
    (hgo : s.gameOver = false) (hp : s.prompt = some p)
    (hm : matchesAnswer s.input p = true) :
    submitTyped pool s r =
      { s with score := s.score + 1, streak := s.streak + 1,
               message := ("Correct!".data), input := [],
               prompt := if pool ≠ [] then some (pickR pool r) else s.prompt,
               timeLeft := s.duration } := by
  rw [submitTyped, if_neg (by simp [hgo]), hp]
  simp [hm]

theorem submitTyped_wrong (pool : List Str) (s : GameState) (r : Nat) (p : Str)
    (hgo : s.gameOver = false) (hp : s.prompt = some p)
    (hm : matchesAnswer s.input p = false) :
    submitTyped pool s r =
      { s with streak := 0, lives := s.lives - 1,
               gameOver := if s.lives - 1 = 0 then true else s.gameOver,
               message := ("Not quite. Try again.".data), input := [],
               timeLeft := s.duration } := by
  rw [submitTyped, if_neg (by simp [hgo]), hp]
  simp [hm]

/-- C8 counterexample: from the same active situation, a Type-mode miss
leaves the prompt at Ontario while a Click-mode miss on the same pool
moves the prompt to Quebec, so the next-prompt transition of a Type-mode
submission is not the Click-mode one. -/
theorem mqg_C8_counterexample :
    (submitTyped [("Ontario".data), ("Quebec".data)] c8typeState 0).prompt =
      some ("Ontario".data) ∧
    (onGeoClick [("Ontario".data), ("Quebec".data)]
      { c8typeState with mode := Mode.click } ("Quebec".data) 0).prompt =
      some ("Quebec".data) ∧
    some ("Ontario".data) ≠ some ("Quebec".data) := by
  decide

/-- C8 as amended: a Type-mode submission decides correctness with the
alias matcher; a correct submission applies the Click-mode scoring
transition (score and streak up, uniform prompt re-draw over the full
pool, countdown reset); a miss applies the Click-mode penalty transition
to streak, lives and game-over but leaves the prompt unchanged; the
input field is cleared after every submission; typing tx against the
prompt Texas scores, extends the streak and clears the input. -/
theorem mqg_C8_theorem :
    (∀ (pool : List Str) (s : GameState) (r : Nat) (p : Str),
       s.gameOver = false → s.prompt = some p → matchesAnswer s.input p = true →
       submitTyped pool s r =
         { s with score := s.score + 1, streak := s.streak + 1,
                  message := ("Correct!".data), input := [],
                  prompt := if pool ≠ [] then some (pickR pool r) else s.prompt,
                  timeLeft := s.duration }) ∧
    (∀ (pool : List Str) (s : GameState) (r : Nat) (p : Str),
       s.gameOver = false → s.prompt = some p → matchesAnswer s.input p = false →
       submitTyped pool s r =
         { s with streak := 0, lives := s.lives - 1,
                  gameOver := if s.lives - 1 = 0 then true else s.gameOver,
                  message := ("Not quite. Try again.".data), input := [],
                  timeLeft := s.duration } ∧
       (submitTyped pool s r).prompt = s.prompt) ∧
    (∀ (pool : List Str) (s : GameState) (r : Nat) (p : Str),
       s.gameOver = false → s.prompt = some p →
       (submitTyped pool s r).input = []) ∧
    ((submitTyped [("Texas".data)] txstate 0).score = txstate.score + 1 ∧
     (submitTyped [("Texas".data)] txstate 0).streak = txstate.streak + 1 ∧
     (submitTyped [("Texas".data)] txstate 0).input = [] ∧
     matchesAnswer txstate.input ("Texas".data) = true) := by
  refine ⟨submitTyped_correct, ?_, ?_, by decide, by decide, by decide, by decide⟩
  · intro pool s r p hgo hp hm
    refine ⟨submitTyped_wrong pool s r p hgo hp hm, ?_⟩
    rw [submitTyped_wrong pool s r p hgo hp hm]
  · intro pool s r p hgo hp
    cases hm : matchesAnswer s.input p with
    | true => rw [submitTyped_correct pool s r p hgo hp hm]
    | false => rw [submitTyped_wrong pool s r p hgo hp hm]

/-- C8 witness: the amended clauses applied to the concrete Texas state
and to a wrong submission against it. -/
theorem mqg_C8_witness :
    submitTyped [("Texas".data)] txstate 0 =
      { txstate with score := txstate.score + 1, streak := txstate.streak + 1,
                     message := ("Correct!".data), input := [],
                     prompt := if ([("Texas".data)] : List Str) ≠ [] then
                                 some (pickR [("Texas".data)] 0)
                               else txstate.prompt,
                     timeLeft := txstate.duration } ∧
    (submitTyped [("Texas".data)] { txstate with input := ("oops".data) } 0).prompt =
      { txstate with input := ("oops".data) }.prompt :=
  ⟨mqg_C8_theorem.1 [("Texas".data)] txstate 0 ("Texas".data) rfl rfl (by decide),
   (mqg_C8_theorem.2.1 [("Texas".data)] { txstate with input := ("oops".data) } 0
     ("Texas".data) rfl rfl (by decide)).2⟩

/-- C10 counterexample: a property bag whose only string property is the
GSS-looking code E06000001 sitting in the preferred name field name: the
claim demands the empty string, but pickNameUK returns the raw code,
because the preferred name fields are returned verbatim before any
GSS-pattern check. -/
theorem mqg_C10_counterexample :
    pickNameUK (some [(("name".data), PVal.pstr ("E06000001".data))]) =
      ("E06000001".data) ∧
    gssLike ("E06000001".data) = true ∧
    ("E06000001".data : Str) ≠ [] := by
  decide

/-- C10 as amended: for a property bag in which no preferred name field
holds a string, every string-valued property matches the GSS-code
pattern, and the code field selected by the || chain is not one of the
four known UK country codes, pickNameUK returns the empty string;
conversely the four country codes resolve to England, Scotland, Wales
and Northern Ireland. -/
theorem mqg_C10_theorem :
    (∀ props : Props,
       (∀ e ∈ props, match e.2 with
         | PVal.pstr v => gssLike v = true
         | _ => True) →
       (∀ k ∈ ukNameFields, match plookup props k with
         | some (PVal.pstr _) => False
         | _ => True) →
       (match (ukCodeFields.filterMap (fun k => plookup props k)).find? truthyP with
         | some (PVal.pstr c) => ukLookup c = none
         | _ => True) →
       pickNameUK (some props) = []) ∧
    pickNameUK (some [(("ctry17cd".data), PVal.pstr ("E92000001".data))]) =
      ("England".data) ∧
    pickNameUK (some [(("ctry19cd".data), PVal.pstr ("S92000003".data))]) =
      ("Scotland".data) ∧
    pickNameUK (some [(("gss_code".data), PVal.pstr ("W92000004".data))]) =
      ("Wales".data) ∧
    pickNameUK (some [(("code".data), PVal.pstr ("N92000002".data))]) =
      ("Northern Ireland".data) := by
  refine ⟨?_, by decide, by decide, by decide, by decide⟩
  intro props h1 h2 h3
  have hlast : lastResortUK props = [] := by
    unfold lastResortUK
    have hnil : props.filterMap (fun e =>
        match e.2 with
        | PVal.pstr v => if strTrimNonempty v && !gssLike v then some v else none
        | _ => none) = [] := by
      rw [List.filterMap_eq_nil_iff]
      intro e he
      have h1e := h1 e he
      cases hv : e.2 with
      | pstr v =>
        rw [hv] at h1e
        simp [h1e]
      | pnum v => rfl
      | pbool b => rfl
      | pnull => rfl
    rw [hnil]
    rfl
  have hcands : ukNameFields.filterMap (fun k =>
      match plookup props k with
      | some (PVal.pstr s) => if strTrimNonempty s then some s else none
      | _ => none) = [] := by
    rw [List.filterMap_eq_nil_iff]
    intro k hk
    have h2k := h2 k hk
    cases hv : plookup props k with
    | none => rfl
    | some v =>
      cases v with
      | pstr s => rw [hv] at h2k; exact absurd h2k (by simp)
      | pnum n => rfl
      | pbool b => rfl
      | pnull => rfl
  simp only [pickNameUK]
  rw [hcands]
  cases hfind : (ukCodeFields.filterMap (fun k => plookup props k)).find? truthyP with
  | none => exact hlast
  | some pv =>
    cases pv with
    | pstr c =>
      rw [hfind] at h3
      have hmem : PVal.pstr c ∈ ukCodeFields.filterMap (fun k => plookup props k) :=
        List.mem_of_find?_eq_some hfind
      rcases List.mem_filterMap.mp hmem with ⟨k, _, hpl⟩
      have hex : ∃ e ∈ props, e.2 = PVal.pstr c := by
        unfold plookup at hpl
        cases hfe : props.find? (fun e => e.1 == k) with
        | none => rw [hfe] at hpl; cases hpl
        | some e =>
          rw [hfe] at hpl
          refine ⟨e, List.mem_of_find?_eq_some hfe, ?_⟩
          simpa using hpl
      rcases hex with ⟨e, hep, he2⟩
      have hgss := h1 e hep
      rw [he2] at hgss
      simp [h3, hgss, hlast]
    | pnum v => exact hlast
    | pbool b => exact hlast
    | pnull => exact hlast

/-- C10 witness: the amended clause applied to a property bag holding
only a county code in a code field. -/
theorem mqg_C10_witness :
    pickNameUK (some [(("lad17cd".data), PVal.pstr ("E06000001".data))]) = [] := by
  refine mqg_C10_theorem.1 [(("lad17cd".data), PVal.pstr ("E06000001".data))] ?_ ?_ ?_
  · intro e he
    rw [List.mem_singleton] at he
    subst he
    exact (by decide : gssLike ("E06000001".data) = true)
  · intro k hk
    fin_cases hk <;> exact trivial
  · exact (by decide : ukLookup ("E06000001".data) = none)

theorem decomp_of_find?_none (c : Char)
    (h : decompTable.find? (fun e => e.1 == c) = none) : decomp c = [c] := by
  unfold decomp
  rw [h]

theorem lowerChar_of_find?_none (c : Char)
    (h : lowerTable.find? (fun e => e.1 == c) = none) : lowerChar c = c := by
  unfold lowerChar
  rw [h]

theorem lowerTable_facts : ∀ e ∈ lowerTable,
    charOKb e.2 = true ∧ isWs e.1 = false ∧ isWs e.2 = false ∧
    e.1 ≠ ' ' ∧ e.2 ≠ ' ' := by
  decide

theorem decompTable_facts : ∀ e ∈ decompTable, ∀ d ∈ e.2,
    isDiacritic d = false → charOKb (lowerChar (wsToSp d)) = true := by
  decide

theorem decompTable_no_diacritic_keys : ∀ e ∈ decompTable,
    isDiacritic e.1 = false := by
  decide

theorem decomp_of_diacritic (c : Char) (h : isDiacritic c = true) :
    decomp c = [c] := by
  apply decomp_of_find?_none
  rw [List.find?_eq_none]
  intro e he
  have := decompTable_no_diacritic_keys e he
  intro hbeq
  rw [beq_iff_eq] at hbeq
  rw [hbeq] at this
  rw [h] at this
  cases this

theorem lowerChar_space_iff (c : Char) : lowerChar c = ' ' ↔ c = ' ' := by
  constructor
  · intro h
    cases hf : lowerTable.find? (fun e => e.1 == c) with
    | none => rw [lowerChar_of_find?_none c hf] at h; exact h
    | some e =>
      have h2 : lowerChar c = e.2 := by unfold lowerChar; rw [hf]
      rw [h2] at h
      exact absurd h (lowerTable_facts e (List.mem_of_find?_eq_some hf)).2.2.2.2
  · intro h
    rw [h]
    decide

theorem isWs_lowerChar (c : Char) : isWs (lowerChar c) = isWs c := by
  cases hf : lowerTable.find? (fun e => e.1 == c) with
  | none => rw [lowerChar_of_find?_none c hf]
  | some e =>
    have h2 : lowerChar c = e.2 := by unfold lowerChar; rw [hf]
    have hpred := @List.find?_some (Char × Char) (fun e => e.1 == c) e lowerTable hf
    have hc : e.1 = c := by
      simp only [beq_iff_eq] at hpred
      exact hpred
    obtain ⟨_, hw1, hw2, _, _⟩ := lowerTable_facts e (List.mem_of_find?_eq_some hf)
    rw [h2, hw2, ← hc, hw1]

theorem charOKb_spec (c : Char) (h : charOKb c = true) :
    decomp c = [c] ∧ isDiacritic c = false ∧ (isWs c = true → c = ' ') ∧
    lowerChar c = c := by
  unfold charOKb at h
  simp only [Bool.and_eq_true, Bool.or_eq_true, Bool.not_eq_true', beq_iff_eq] at h
  obtain ⟨⟨⟨h1, h2⟩, h3⟩, h4⟩ := h
  refine ⟨h1, h2, ?_, h4⟩
  intro hw
  rcases h3 with h3 | h3
  · rw [hw] at h3; cases h3
  · exact h3

theorem char_contribution (c d : Char) (hd : d ∈ decomp c)
    (hdia : isDiacritic d = false) : charOKb (lowerChar (wsToSp d)) = true := by
  unfold decomp at hd
  cases hf : decompTable.find? (fun e => e.1 == c) with
  | some e =>
    rw [hf] at hd
    exact decompTable_facts e (List.mem_of_find?_eq_some hf) d hd hdia
  | none =>
    rw [hf] at hd
    rw [List.mem_singleton] at hd
    subst hd
    by_cases hws : isWs d = true
    · have hsp : wsToSp d = ' ' := by simp [wsToSp, hws]
      rw [hsp]
      decide
    · have hsp : wsToSp d = d := by simp [wsToSp, hws]
      rw [hsp]
      cases hl : lowerTable.find? (fun e => e.1 == d) with
      | some e =>
        have h2 : lowerChar d = e.2 := by unfold lowerChar; rw [hl]
        rw [h2]
        exact (lowerTable_facts e (List.mem_of_find?_eq_some hl)).1
      | none =>
        rw [lowerChar_of_find?_none d hl]
        unfold charOKb
        rw [decomp_of_find?_none d hf, lowerChar_of_find?_none d hl]
        simp [hdia, hws]

theorem noDouble_tail (a : Char) (l : Str) (h : noDouble (a :: l) = true) :
    noDouble l = true := by
  cases l with
  | nil => rfl
  | cons b rest =>
    rw [noDouble, Bool.and_eq_true] at h
    exact h.2

theorem nfd_eq_self (l : Str) (h : ∀ c ∈ l, decomp c = [c]) : nfd l = l := by
  induction l with
  | nil => rfl
  | cons c cs ih =>
    rw [nfd, h c (List.mem_cons_self c cs),
      ih (fun d hd => h d (List.mem_cons_of_mem c hd))]
    rfl

theorem mem_nfd (l : Str) (d : Char) (h : d ∈ nfd l) : ∃ c ∈ l, d ∈ decomp c := by
  induction l with
  | nil => cases h
  | cons c cs ih =>
    rw [nfd] at h
    rcases List.mem_append.mp h with h | h
    · exact ⟨c, List.mem_cons_self c cs, h⟩
    · rcases ih h with ⟨c', hc', hd⟩
      exact ⟨c', List.mem_cons_of_mem c hc', hd⟩

theorem mapId (f : Char → Char) (l : Str) (h : ∀ c ∈ l, f c = c) :
    l.map f = l := by
  induction l with
  | nil => rfl
  | cons c cs ih =>
    rw [List.map_cons, h c (List.mem_cons_self c cs),
      ih (fun d hd => h d (List.mem_cons_of_mem c hd))]

theorem head?_dedupe (l : Str) : (dedupe l).head? = l.head? := by
  induction l with
  | nil => rfl
  | cons a tl ih =>
    cases tl with
    | nil => rfl
    | cons b rest =>
      rw [dedupe]
      by_cases hsp : (a == ' ' && b == ' ') = true
      · rw [if_pos hsp, ih]
        rw [Bool.and_eq_true, beq_iff_eq, beq_iff_eq] at hsp
        rw [hsp.1, hsp.2]
        rfl
      · rw [if_neg hsp]
        rfl

theorem mem_dedupe (l : Str) (c : Char) (h : c ∈ dedupe l) : c ∈ l := by
  induction l with
  | nil => cases h
  | cons a tl ih =>
    cases tl with
    | nil => exact h
    | cons b rest =>
      rw [dedupe] at h
      by_cases hsp : (a == ' ' && b == ' ') = true
      · rw [if_pos hsp] at h
        exact List.mem_cons_of_mem a (ih h)
      · rw [if_neg hsp] at h
        rcases List.mem_cons.mp h with h | h
        · rw [h]
          exact List.mem_cons_self a (b :: rest)
        · exact List.mem_cons_of_mem a (ih h)

theorem noDouble_dedupe (l : Str) : noDouble (dedupe l) = true := by
  induction l with
  | nil => rfl
  | cons a tl ih =>
    cases tl with
    | nil => rfl
    | cons b rest =>
      rw [dedupe]
      by_cases hsp : (a == ' ' && b == ' ') = true
      · rw [if_pos hsp]
        exact ih
      · rw [if_neg hsp]
        cases hX : dedupe (b :: rest) with
        | nil => rfl
        | cons x xs =>
          have hx : x = b := by
            have h5 := head?_dedupe (b :: rest)
            rw [hX] at h5
            exact Option.some_injective _ h5
          rw [noDouble, Bool.and_eq_true]
          constructor
          · rw [hx]
            cases hb : (a == ' ' && b == ' ') with
            | false => rfl
            | true => exact absurd hb hsp
          · rw [← hX]
            exact ih

theorem dedupe_eq_self (l : Str) (h : noDouble l = true) : dedupe l = l := by
  induction l with
  | nil => rfl
  | cons a tl ih =>
    cases tl with
    | nil => rfl
    | cons b rest =>
      rw [noDouble, Bool.and_eq_true] at h
      have hf : (a == ' ' && b == ' ') = false := by
        have h1 := h.1
        rwa [Bool.not_eq_true'] at h1
      rw [dedupe, if_neg (by rw [hf]; exact Bool.false_ne_true), ih h.2]

theorem trimR_sublist (l : Str) : List.Sublist (trimR l) l := by
  induction l with
  | nil => exact List.Sublist.refl []
  | cons c cs ih =>
    rw [trimR]
    cases h : trimR cs with
    | nil =>
      by_cases hws : isWs c = true
      · rw [if_pos hws]
        exact List.nil_sublist _
      · rw [if_neg hws]
        exact List.Sublist.cons₂ c (List.nil_sublist cs)
    | cons x xs =>
      rw [h] at ih
      exact List.Sublist.cons₂ c ih

theorem trimR_head? (l : Str) : trimR l = [] ∨ (trimR l).head? = l.head? := by
  cases l with
  | nil => exact Or.inl rfl
  | cons c cs =>
    rw [trimR]
    cases h : trimR cs with
    | nil =>
      by_cases hws : isWs c = true
      · rw [if_pos hws]
        exact Or.inl rfl
      · rw [if_neg hws]
        exact Or.inr rfl
    | cons x xs => exact Or.inr rfl

theorem noDouble_trimR (l : Str) (h : noDouble l = true) :
    noDouble (trimR l) = true := by
  induction l with
  | nil => rfl
  | cons c cs ih =>
    have hcs : noDouble cs = true := noDouble_tail c cs h
    rw [trimR]
    cases htr : trimR cs with
    | nil =>
      by_cases hws : isWs c = true
      · rw [if_pos hws]
        rfl
      · rw [if_neg hws]
        rfl
    | cons x xs =>
      have hnd : noDouble (x :: xs) = true := by
        have h2 := ih hcs
        rwa [htr] at h2
      cases cs with
      | nil => cases htr
      | cons b rest =>
        have hx : x = b := by
          rcases trimR_head? (b :: rest) with h' | h'
          · rw [h'] at htr
            cases htr
          · rw [htr] at h'
            exact Option.some_injective _ h'
        rw [noDouble, Bool.and_eq_true]
        refine ⟨?_, hnd⟩
        rw [hx]
        rw [noDouble, Bool.and_eq_true] at h
        exact h.1

theorem getLast?_trimR_not_ws (l : Str) :
    ∀ c, (trimR l).getLast? = some c → isWs c = false := by
  induction l with
  | nil => intro c h; cases h
  | cons a cs ih =>
    intro c h
    rw [trimR] at h
    cases htr : trimR cs with
    | nil =>
      rw [htr] at h
      by_cases hws : isWs a = true
      · rw [if_pos hws] at h
        cases h
      · rw [if_neg hws] at h
        have hac : a = c := by
          simpa using h
        rw [← hac]
        exact Bool.eq_false_iff.mpr hws
    | cons x xs =>
      rw [htr] at h
      rw [List.getLast?_cons_cons] at h
      rw [← htr] at h
      exact ih c h

theorem trimR_eq_self (l : Str)
    (h : ∀ c, l.getLast? = some c → isWs c = false) : trimR l = l := by
  induction l with
  | nil => rfl
  | cons a cs ih =>
    cases cs with
    | nil =>
      have ha : isWs a = false := h a rfl
      simp [trimR, ha]
    | cons b rest =>
      have hcs : ∀ c, (b :: rest).getLast? = some c → isWs c = false := by
        intro c hc
        apply h c
        rw [List.getLast?_cons_cons]
        exact hc
      have htr : trimR (b :: rest) = b :: rest := ih hcs
      rw [trimR, htr]

theorem head?_dropWhile_not (p : Char → Bool) (l : Str) :
    ∀ c, (l.dropWhile p).head? = some c → p c = false := by
  induction l with
  | nil => intro c h; cases h
  | cons a cs ih =>
    intro c h
    rw [List.dropWhile] at h
    by_cases hp : p a = true
    · rw [hp] at h
      exact ih c h
    · have hf : p a = false := Bool.eq_false_iff.mpr hp
      rw [hf] at h
      have hac : a = c := by simpa using h
      rw [← hac]
      exact hf

theorem dropWhile_eq_self_of_head (p : Char → Bool) (l : Str)
    (h : ∀ c, l.head? = some c → p c = false) : l.dropWhile p = l := by
  cases l with
  | nil => rfl
  | cons a cs =>
    have ha : p a = false := h a rfl
    rw [List.dropWhile, ha]

theorem noDouble_dropWhile (p : Char → Bool) (l : Str) (h : noDouble l = true) :
    noDouble (l.dropWhile p) = true := by
  induction l with
  | nil => rfl
  | cons a cs ih =>
    rw [List.dropWhile]
    by_cases hp : p a = true
    · rw [hp]
      exact ih (noDouble_tail a cs h)
    · rw [Bool.eq_false_iff.mpr hp]
      exact h

theorem norm_def (s : Str) : norm s =
    (trimR (((dedupe (((nfd s).filter (fun c => !isDiacritic c)).map wsToSp))).dropWhile
      isWs)).map lowerChar := rfl

theorem noDouble_map_lower (l : Str) (h : noDouble l = true) :
    noDouble (l.map lowerChar) = true := by
  induction l with
  | nil => rfl
  | cons a tl ih =>
    cases tl with
    | nil => rfl
    | cons b rest =>
      rw [List.map_cons, List.map_cons, noDouble, Bool.and_eq_true]
      rw [noDouble, Bool.and_eq_true] at h
      constructor
      · cases hb : (lowerChar a == ' ' && lowerChar b == ' ') with
        | false => rfl
        | true =>
          exfalso
          rw [Bool.and_eq_true, beq_iff_eq, beq_iff_eq] at hb
          have ha' : a = ' ' := (lowerChar_space_iff a).mp hb.1
          have hb' : b = ' ' := (lowerChar_space_iff b).mp hb.2
          have h1 := h.1
          rw [ha', hb'] at h1
          cases h1
      · have h2 := ih (noDouble_tail a (b :: rest) (by rw [noDouble, Bool.and_eq_true]; exact h))
        rw [List.map_cons] at h2
        exact h2

theorem norm_fixed (t : Str) (hOK : ∀ c ∈ t, charOKb c = true)
    (hnd : noDouble t = true)
    (hh : ∀ c, t.head? = some c → isWs c = false)
    (hl : ∀ c, t.getLast? = some c → isWs c = false) : norm t = t := by
  have hdec : ∀ c ∈ t, decomp c = [c] := fun c hc => (charOKb_spec c (hOK c hc)).1
  have hdia : ∀ c ∈ t, (!isDiacritic c) = true := by
    intro c hc
    rw [(charOKb_spec c (hOK c hc)).2.1]
    rfl
  have hws : ∀ c ∈ t, wsToSp c = c := by
    intro c hc
    by_cases hw : isWs c = true
    · have := (charOKb_spec c (hOK c hc)).2.2.1 hw
      rw [wsToSp, if_pos hw, this]
    · rw [wsToSp, if_neg hw]
  have hlow : ∀ c ∈ t, lowerChar c = c := fun c hc => (charOKb_spec c (hOK c hc)).2.2.2
  rw [norm_def, nfd_eq_self t hdec, List.filter_eq_self.mpr hdia, mapId wsToSp t hws,
    dedupe_eq_self t hnd, dropWhile_eq_self_of_head isWs t hh,
    trimR_eq_self t hl, mapId lowerChar t hlow]

theorem norm_chars_ok (s : Str) : ∀ c ∈ norm s, charOKb c = true := by
  intro c hc
  rw [norm_def] at hc
  rcases List.mem_map.mp hc with ⟨d, hd, rfl⟩
  have hd2 : d ∈ dedupe ((((nfd s).filter (fun c => !isDiacritic c)).map wsToSp)) := by
    have hsub1 := trimR_sublist
      ((dedupe ((((nfd s).filter (fun c => !isDiacritic c)).map wsToSp))).dropWhile isWs)
    exact (List.dropWhile_sublist isWs).subset (hsub1.subset hd)
  have hd3 := mem_dedupe _ d hd2
  rcases List.mem_map.mp hd3 with ⟨e, he, rfl⟩
  have he2 := List.mem_filter.mp he
  rcases mem_nfd s e he2.1 with ⟨c₀, _, hec⟩
  have hdia : isDiacritic e = false := by
    have h2 := he2.2
    rwa [Bool.not_eq_true'] at h2
  exact char_contribution c₀ e hec hdia

theorem norm_noDouble (s : Str) : noDouble (norm s) = true := by
  rw [norm_def]
  exact noDouble_map_lower _ (noDouble_trimR _ (noDouble_dropWhile isWs _
    (noDouble_dedupe _)))

theorem norm_head_not_ws (s : Str) :
    ∀ c, (norm s).head? = some c → isWs c = false := by
  intro c hc
  rw [norm_def, List.head?_map] at hc
  rcases Option.map_eq_some'.mp hc with ⟨d, hd, rfl⟩
  rcases trimR_head? ((dedupe (((nfd s).filter
      (fun c => !isDiacritic c)).map wsToSp)).dropWhile isWs) with h | h
  · rw [h] at hd
    cases hd
  · rw [h] at hd
    rw [isWs_lowerChar]
    exact head?_dropWhile_not isWs _ d hd

theorem norm_last_not_ws (s : Str) :
    ∀ c, (norm s).getLast? = some c → isWs c = false := by
  intro c hc
  rw [norm_def, List.getLast?_map] at hc
  rcases Option.map_eq_some'.mp hc with ⟨d, hd, rfl⟩
  rw [isWs_lowerChar]
  exact getLast?_trimR_not_ws _ d hd

theorem nfd_filter_comm (s : Str) :
    (nfd (s.filter (fun c => !isDiacritic c))).filter (fun c => !isDiacritic c) =
      (nfd s).filter (fun c => !isDiacritic c) := by
  induction s with
  | nil => rfl
  | cons c cs ih =>
    by_cases hd : isDiacritic c = true
    · have hq : (!isDiacritic c) = false := by rw [hd]; rfl
      simp [List.filter_cons, hq, nfd, List.filter_append,
        decomp_of_diacritic c hd, ih]
    · have hq : (!isDiacritic c) = true := by rw [Bool.eq_false_iff.mpr hd]; rfl
      simp [List.filter_cons, hq, nfd, List.filter_append, ih]

theorem norm_filter_diacritic (s : Str) :
    norm (s.filter (fun c => !isDiacritic c)) = norm s := by
  rw [norm_def, norm_def, nfd_filter_comm]

/-- C3: norm is total, treating a null or undefined argument as the
empty string; it is idempotent on every string over the modeled
character tables; it is insensitive to combining diacritics on every
string, and to case and surrounding or repeated whitespace as the
concrete checks show; in particular norm maps Quebec with an acute
accent to its plain lowercase form. -/
theorem mqg_C3_theorem :
    normOpt none = [] ∧
    (∀ s : Option Str, normOpt s = norm (s.getD [])) ∧
    (∀ s : Str, norm (norm s) = norm s) ∧
    (∀ s : Str, norm (s.filter (fun c => !isDiacritic c)) = norm s) ∧
    norm ("Québec".data) = ("quebec".data) ∧
    norm ("QUÉBEC".data) = ("quebec".data) ∧
    norm (" \t Québec  ".data) = ("quebec".data) ∧
    norm ("quebec".data) = ("quebec".data) := by
  refine ⟨rfl, ?_, ?_, norm_filter_diacritic, by decide, by decide, by decide,
    by decide⟩
  · intro s
    cases s with
    | none => rfl
    | some s => rfl
  · intro s
    exact norm_fixed (norm s) (norm_chars_ok s) (norm_noDouble s)
      (norm_head_not_ws s) (norm_last_not_ws s)
